import Mathlib

/-!
Verification development for the facebook hashtag scraper.

Python strings are modelled as `List Char`; `None`-able arguments as
`Option`; the HTML node tree handed to the extractor as an explicit
mutual inductive.  Every definition is translated from the repository's
source (`src/extractors/content_cleaner.py`,
`src/extractors/facebook_parser.py`, `src/utils/proxy_manager.py`);
definitions that deliberately follow the specification's words instead
are marked as such in their doc comments.
-/

/-! ## Content normalizer (src/extractors/content_cleaner.py) -/

/-- Whitespace set of Python's `str.strip` / `str.split` and of the
regex class used by `WHITESPACE_RE` (the `str.isspace` character set). -/
def pySpace (c : Char) : Bool :=
  let v := c.toNat
  decide (v = 32 ∨ (9 ≤ v ∧ v ≤ 13) ∨ (28 ≤ v ∧ v ≤ 31) ∨ v = 133 ∨ v = 160 ∨
    v = 5760 ∨ (8192 ≤ v ∧ v ≤ 8202) ∨ v = 8232 ∨ v = 8233 ∨ v = 8239 ∨
    v = 8287 ∨ v = 12288)

/-- Characters matched by `CONTROL_CHARS_RE`, i.e. the ranges
`\x00-\x08`, `\x0b-\x0c`, `\x0e-\x1f` (tab, LF and CR are preserved). -/
def isCtl (c : Char) : Bool :=
  let v := c.toNat
  decide (v ≤ 8 ∨ (11 ≤ v ∧ v ≤ 12) ∨ (14 ≤ v ∧ v ≤ 31))

/-- Replacement of every maximal whitespace run by a single space, the
effect of `WHITESPACE_RE.sub(" ", text)`.  The flag records whether the
previous character belonged to a whitespace run. -/
def collapseWsAux (prevSp : Bool) : List Char → List Char
  | [] => []
  | c :: rest =>
    if pySpace c then
      (if prevSp then [] else [' ']) ++ collapseWsAux true rest
    else c :: collapseWsAux false rest

/-- Removal of trailing Python whitespace, half of `str.strip()`. -/
def stripEnd (l : List Char) : List Char :=
  (l.reverse.dropWhile pySpace).reverse

/-- Python's `str.strip()` with no arguments. -/
def pyStrip (l : List Char) : List Char :=
  stripEnd (l.dropWhile pySpace)

/-- Cleaning pipeline before the length cap: drop control characters,
collapse whitespace runs to single spaces, then strip (the value the
source binds to `text` right before the truncation check). -/
def cleanPre (t : List Char) : List Char :=
  pyStrip (collapseWsAux false (t.filter (fun c => !(isCtl c))))

/-- Body of `clean_content` on a present string: the cleaning pipeline
followed by truncation to 10000 characters. -/
def cleanCore (t : List Char) : List Char :=
  if 10000 < (cleanPre t).length then (cleanPre t).take 10000 else cleanPre t

/-- Embedding of `clean_content`; `None` input yields the empty string. -/
def clean_content : Option (List Char) → List Char
  | none => []
  | some t => cleanCore t

example : clean_content (some ['a', ' ', ' ', 'b']) = ['a', ' ', 'b'] := by decide
example : clean_content (some [' ', '\t', 'x', '\n']) = ['x'] := by decide
example : clean_content (some ['a', '\x01', 'b']) = ['a', 'b'] := by decide
example : clean_content none = [] := by decide

/-! ### Shape invariant of cleaned text -/

/-- Shape produced by whitespace collapsing: every whitespace character
is a plain space, no space follows a space, and when the flag is set
the list must not start with a space. -/
def goodRun : Bool → List Char → Bool
  | _, [] => true
  | prevSp, c :: rest =>
    if c = ' ' then !prevSp && goodRun true rest
    else !pySpace c && goodRun false rest

theorem goodRun_collapseWsAux (l : List Char) :
    ∀ b : Bool, goodRun b (collapseWsAux b l) = true := by
  induction l with
  | nil => intro b; rfl
  | cons c rest ih =>
    intro b
    by_cases hc : pySpace c = true
    · cases b with
      | true =>
        simp only [collapseWsAux, hc, if_true, List.nil_append]
        exact ih true
      | false =>
        simp only [collapseWsAux, hc, if_true, List.singleton_append]
        simp only [goodRun, if_pos rfl, Bool.not_false, Bool.true_and]
        exact ih true
    · have hc' : pySpace c = false := by simpa using hc
      have hcsp : ¬ (c = ' ') := by
        intro h
        rw [h, (by decide : pySpace ' ' = true)] at hc'
        cases hc'
      simp only [collapseWsAux, hc', Bool.false_eq_true, if_false]
      simp only [goodRun, if_neg hcsp, hc', Bool.not_false, Bool.true_and]
      exact ih false

theorem collapseWsAux_of_goodRun (l : List Char) :
    ∀ b : Bool, goodRun b l = true → collapseWsAux b l = l := by
  induction l with
  | nil => intro b _; rfl
  | cons c rest ih =>
    intro b h
    by_cases hsp : c = ' '
    · subst hsp
      rw [goodRun, if_pos rfl, Bool.and_eq_true, Bool.not_eq_true'] at h
      obtain ⟨hb, hrest⟩ := h
      subst hb
      simp only [collapseWsAux, (by decide : pySpace ' ' = true), if_true,
        List.singleton_append]
      rw [ih true hrest]
      simp
    · rw [goodRun, if_neg hsp, Bool.and_eq_true, Bool.not_eq_true'] at h
      obtain ⟨hps, hrest⟩ := h
      simp only [collapseWsAux, hps, Bool.false_eq_true, if_false]
      rw [ih false hrest]

theorem goodRun_append_left (l₂ : List Char) :
    ∀ (l₁ : List Char) (b : Bool), goodRun b (l₁ ++ l₂) = true →
      goodRun b l₁ = true := by
  intro l₁
  induction l₁ with
  | nil => intro b _; rfl
  | cons c rest ih =>
    intro b h
    by_cases hsp : c = ' '
    · subst hsp
      rw [List.cons_append, goodRun, if_pos rfl, Bool.and_eq_true] at h
      rw [goodRun, if_pos rfl, Bool.and_eq_true]
      exact ⟨h.1, ih true h.2⟩
    · rw [List.cons_append, goodRun, if_neg hsp, Bool.and_eq_true] at h
      rw [goodRun, if_neg hsp, Bool.and_eq_true]
      exact ⟨h.1, ih false h.2⟩

theorem goodRun_dropWhile (l : List Char) :
    ∀ b : Bool, goodRun b l = true →
      goodRun false (l.dropWhile pySpace) = true := by
  induction l with
  | nil => intro b _; rfl
  | cons c rest ih =>
    intro b h
    by_cases hc : pySpace c = true
    · have hsp : c = ' ' := by
        by_contra hne
        rw [goodRun, if_neg hne, Bool.and_eq_true, Bool.not_eq_true'] at h
        rw [h.1] at hc
        cases hc
      subst hsp
      rw [goodRun, if_pos rfl, Bool.and_eq_true] at h
      rw [List.dropWhile_cons_of_pos hc]
      exact ih true h.2
    · have hc' : pySpace c = false := by simpa using hc
      have hsp : ¬ (c = ' ') := by
        intro h'
        rw [h', (by decide : pySpace ' ' = true)] at hc'
        cases hc'
      rw [List.dropWhile_cons_of_neg hc]
      rw [goodRun, if_neg hsp, Bool.and_eq_true] at h
      rw [goodRun, if_neg hsp, Bool.and_eq_true]
      exact ⟨h.1, h.2⟩

theorem space_of_goodRun (l : List Char) :
    ∀ b : Bool, goodRun b l = true →
      ∀ c ∈ l, pySpace c = true → c = ' ' := by
  induction l with
  | nil => intro b _ c hc; cases hc
  | cons a rest ih =>
    intro b h c hc hcs
    by_cases hsp : a = ' '
    · subst hsp
      rw [goodRun, if_pos rfl, Bool.and_eq_true] at h
      rcases List.mem_cons.mp hc with h1 | h1
      · exact h1
      · exact ih true h.2 c h1 hcs
    · rw [goodRun, if_neg hsp, Bool.and_eq_true, Bool.not_eq_true'] at h
      rcases List.mem_cons.mp hc with h1 | h1
      · rw [h1] at hcs; rw [hcs] at h; cases h.1
      · exact ih false h.2 c h1 hcs

theorem stripEnd_append_eq (l : List Char) :
    stripEnd l ++ (l.reverse.takeWhile pySpace).reverse = l := by
  unfold stripEnd
  rw [← List.reverse_append, List.takeWhile_append_dropWhile, List.reverse_reverse]

theorem goodRun_stripEnd (l : List Char) (h : goodRun false l = true) :
    goodRun false (stripEnd l) = true := by
  apply goodRun_append_left ((l.reverse.takeWhile pySpace).reverse) (stripEnd l) false
  rw [stripEnd_append_eq l]
  exact h

theorem goodRun_pyStrip (l : List Char) (b : Bool) (h : goodRun b l = true) :
    goodRun false (pyStrip l) = true :=
  goodRun_stripEnd _ (goodRun_dropWhile l b h)

theorem goodRun_take (l : List Char) (n : Nat) (b : Bool)
    (h : goodRun b l = true) : goodRun b (l.take n) = true := by
  apply goodRun_append_left (l.drop n) (l.take n) b
  rw [List.take_append_drop]
  exact h

theorem goodRun_cleanCore (t : List Char) :
    goodRun false (cleanCore t) = true := by
  have h1 : goodRun false (cleanPre t) = true := by
    unfold cleanPre
    exact goodRun_pyStrip _ false (goodRun_collapseWsAux _ false)
  unfold cleanCore
  split
  · exact goodRun_take _ _ _ h1
  · exact h1

theorem mem_collapseWsAux (l : List Char) :
    ∀ (b : Bool) (c : Char), c ∈ collapseWsAux b l → c = ' ' ∨ c ∈ l := by
  induction l with
  | nil => intro b c hc; cases hc
  | cons a rest ih =>
    intro b c hc
    by_cases ha : pySpace a = true
    · simp only [collapseWsAux, ha, if_true] at hc
      rcases List.mem_append.mp hc with h1 | h1
      · cases b with
        | true => cases h1
        | false =>
          left
          rcases List.mem_singleton.mp h1 with h; exact h
      · rcases ih true c h1 with h2 | h2
        · exact Or.inl h2
        · exact Or.inr (List.mem_cons_of_mem a h2)
    · have ha' : pySpace a = false := by simpa using ha
      simp only [collapseWsAux, ha', Bool.false_eq_true, if_false] at hc
      rcases List.mem_cons.mp hc with h1 | h1
      · exact Or.inr (h1 ▸ List.mem_cons_self a rest)
      · rcases ih false c h1 with h2 | h2
        · exact Or.inl h2
        · exact Or.inr (List.mem_cons_of_mem a h2)

theorem mem_stripEnd (l : List Char) (c : Char) (h : c ∈ stripEnd l) :
    c ∈ l := by
  unfold stripEnd at h
  rw [List.mem_reverse] at h
  exact List.mem_reverse.mp ((List.dropWhile_sublist pySpace).subset h)

theorem mem_pyStrip (l : List Char) (c : Char) (h : c ∈ pyStrip l) : c ∈ l := by
  unfold pyStrip at h
  exact (List.dropWhile_sublist pySpace).subset (mem_stripEnd _ _ h)

theorem notCtl_of_mem_cleanCore (t : List Char) (c : Char)
    (h : c ∈ cleanCore t) : isCtl c = false := by
  unfold cleanCore at h
  have hS : c ∈ cleanPre t := by
    split at h
    · exact List.take_subset _ _ h
    · exact h
  unfold cleanPre at hS
  have hC := mem_pyStrip _ _ hS
  rcases mem_collapseWsAux _ false c hC with h1 | h1
  · rw [h1]; rfl
  · have := (List.mem_filter.mp h1).2
    simpa using this

theorem head_dropWhile_false (p : Char → Bool) (l : List Char) :
    ∀ c, (l.dropWhile p).head? = some c → p c = false := by
  induction l with
  | nil => intro c h; cases h
  | cons a t ih =>
    intro c h
    by_cases ha : p a = true
    · rw [List.dropWhile_cons_of_pos ha] at h
      exact ih c h
    · have ha' : p a = false := by simpa using ha
      rw [List.dropWhile_cons_of_neg (by simp [ha'])] at h
      have := Option.some.inj h
      rw [← this]
      exact ha'

theorem head_append_of_head (l₁ l₂ : List Char) (c : Char)
    (h : l₁.head? = some c) : (l₁ ++ l₂).head? = some c := by
  cases l₁ with
  | nil => cases h
  | cons a t => simpa using h

theorem head_stripEnd (l : List Char) (c : Char)
    (h : (stripEnd l).head? = some c) : l.head? = some c := by
  have := head_append_of_head (stripEnd l) ((l.reverse.takeWhile pySpace).reverse) c h
  rwa [stripEnd_append_eq] at this

theorem head_take (l : List Char) (n : Nat) (c : Char)
    (h : (l.take n).head? = some c) : l.head? = some c := by
  have := head_append_of_head (l.take n) (l.drop n) c h
  rwa [List.take_append_drop] at this

theorem head_cleanCore_nospace (t : List Char) :
    ∀ c, (cleanCore t).head? = some c → pySpace c = false := by
  intro c h
  unfold cleanCore at h
  have hS : (cleanPre t).head? = some c := by
    split at h
    · exact head_take _ _ _ h
    · exact h
  unfold cleanPre pyStrip at hS
  exact head_dropWhile_false pySpace _ c (head_stripEnd _ _ hS)

theorem cleanCore_length_le (t : List Char) : (cleanCore t).length ≤ 10000 := by
  unfold cleanCore
  split
  · rw [List.length_take]; omega
  · omega

theorem dropWhile_head_eq_self (l : List Char)
    (h : ∀ c, l.head? = some c → pySpace c = false) :
    l.dropWhile pySpace = l := by
  cases l with
  | nil => rfl
  | cons a t =>
    have ha := h a rfl
    rw [List.dropWhile_cons_of_neg (by simp [ha])]

theorem stripEnd_last_eq_self (l : List Char)
    (h : ∀ c, l.getLast? = some c → pySpace c = false) : stripEnd l = l := by
  unfold stripEnd
  cases hr : l.reverse with
  | nil =>
    have : l = [] := by
      have := congrArg List.reverse hr
      simpa using this
    rw [this]
    rfl
  | cons a t =>
    have hlast : l.getLast? = some a := by
      rw [List.getLast?_eq_head?_reverse, hr]
      rfl
    have ha := h a hlast
    rw [List.dropWhile_cons_of_neg (by simp [ha]), ← hr, List.reverse_reverse]

theorem cleanCore_fixed (X : List Char)
    (h1 : X.filter (fun c => !(isCtl c)) = X)
    (h2 : collapseWsAux false X = X)
    (h3 : pyStrip X = X)
    (h4 : X.length ≤ 10000) : cleanCore X = X := by
  have hpre : cleanPre X = X := by
    unfold cleanPre
    rw [h1, h2, h3]
  unfold cleanCore
  rw [hpre, if_neg (by omega)]

theorem last_cleanCore_nospace (s : List Char)
    (h : (cleanCore s).getLast? ≠ some ' ') :
    ∀ c, (cleanCore s).getLast? = some c → pySpace c = false := by
  intro c hc
  by_cases hps : pySpace c = true
  · have hmem : c ∈ cleanCore s := List.mem_of_getLast?_eq_some hc
    have heq : c = ' ' := space_of_goodRun _ false (goodRun_cleanCore s) c hmem hps
    rw [heq] at hc
    exact absurd hc h
  · simpa using hps

/-- C1 (amended): whenever the cleaned output does not end with a space
character, `clean_content` is idempotent.  (Truncation at the
10000-character cap can cut right after a space, so outputs ending in a
space are re-stripped by a second application; see
`clean_content_not_idem`.) -/
theorem clean_content_idem (s : List Char)
    (h : (clean_content (some s)).getLast? ≠ some ' ') :
    clean_content (some (clean_content (some s))) = clean_content (some s) := by
  show cleanCore (cleanCore s) = cleanCore s
  have hgr : goodRun false (cleanCore s) = true := goodRun_cleanCore s
  apply cleanCore_fixed
  · exact List.filter_eq_self.mpr (fun c hc => by
      rw [notCtl_of_mem_cleanCore s c hc]; rfl)
  · exact collapseWsAux_of_goodRun _ false hgr
  · unfold pyStrip
    rw [dropWhile_head_eq_self _ (head_cleanCore_nospace s)]
    exact stripEnd_last_eq_self _ (last_cleanCore_nospace s h)
  · exact cleanCore_length_le s

/-- Witness for `clean_content_idem` at the concrete input "a b". -/
theorem clean_content_idem_witness :
    (clean_content (some ['a', ' ', 'b'])).getLast? ≠ some ' ' ∧
      clean_content (some (clean_content (some ['a', ' ', 'b']))) =
        clean_content (some ['a', ' ', 'b']) :=
  ⟨by decide, clean_content_idem ['a', ' ', 'b'] (by decide)⟩

theorem collapse_repl_a (rest : List Char) :
    ∀ n : Nat, collapseWsAux false (List.replicate n 'a' ++ rest) =
      List.replicate n 'a' ++ collapseWsAux false rest := by
  intro n
  induction n with
  | zero => simp
  | succ k ih =>
    rw [List.replicate_succ, List.cons_append, List.cons_append]
    simp only [collapseWsAux, (by decide : pySpace 'a' = false),
      Bool.false_eq_true, if_false]
    rw [ih]

theorem dropWhile_repl_a (rest : List Char) (k : Nat) :
    (List.replicate (k + 1) 'a' ++ rest).dropWhile pySpace =
      List.replicate (k + 1) 'a' ++ rest := by
  rw [List.replicate_succ, List.cons_append,
    List.dropWhile_cons_of_neg (by simp [(by decide : pySpace 'a' = false)])]

theorem cleanCore_xbad :
    cleanCore (List.replicate 9999 'a' ++ [' ', 'b']) =
      List.replicate 9999 'a' ++ [' '] := by
  have hf : (List.replicate 9999 'a' ++ [' ', 'b']).filter
      (fun c => !(isCtl c)) = List.replicate 9999 'a' ++ [' ', 'b'] := by
    apply List.filter_eq_self.mpr
    intro c hc
    rcases List.mem_append.mp hc with h | h
    · rw [List.eq_of_mem_replicate h]; decide
    · rcases List.mem_cons.mp h with rfl | h2
      · decide
      · rcases List.mem_singleton.mp h2 with rfl
        decide
  have hcol : collapseWsAux false (List.replicate 9999 'a' ++ [' ', 'b']) =
      List.replicate 9999 'a' ++ [' ', 'b'] := by
    rw [collapse_repl_a]
    rw [(by decide : collapseWsAux false [' ', 'b'] = [' ', 'b'])]
  have hstrip : pyStrip (List.replicate 9999 'a' ++ [' ', 'b']) =
      List.replicate 9999 'a' ++ [' ', 'b'] := by
    unfold pyStrip
    rw [(by rw [(by norm_num : (9999 : Nat) = 9998 + 1)]; exact
        dropWhile_repl_a [' ', 'b'] 9998 :
      (List.replicate 9999 'a' ++ [' ', 'b']).dropWhile pySpace =
        List.replicate 9999 'a' ++ [' ', 'b'])]
    unfold stripEnd
    rw [List.reverse_append, List.reverse_replicate,
      (by decide : ([' ', 'b'] : List Char).reverse = ['b', ' ']),
      List.cons_append,
      List.dropWhile_cons_of_neg (by simp [(by decide : pySpace 'b' = false)]),
      ← List.cons_append, List.reverse_append, List.reverse_replicate]
    rfl
  have hpre : cleanPre (List.replicate 9999 'a' ++ [' ', 'b']) =
      List.replicate 9999 'a' ++ [' ', 'b'] := by
    unfold cleanPre
    rw [hf, hcol, hstrip]
  have hlen : (List.replicate 9999 'a' ++ ([' ', 'b'] : List Char)).length
      = 10001 := by
    rw [List.length_append, List.length_replicate]
    decide
  unfold cleanCore
  rw [hpre, if_pos (by rw [hlen]; norm_num)]
  rw [List.take_append_eq_append_take,
    List.take_of_length_le (by rw [List.length_replicate]; norm_num),
    List.length_replicate]
  rfl

theorem cleanCore_xbad2 :
    cleanCore (List.replicate 9999 'a' ++ [' ']) = List.replicate 9999 'a' := by
  have hf : (List.replicate 9999 'a' ++ [' ']).filter
      (fun c => !(isCtl c)) = List.replicate 9999 'a' ++ [' '] := by
    apply List.filter_eq_self.mpr
    intro c hc
    rcases List.mem_append.mp hc with h | h
    · rw [List.eq_of_mem_replicate h]; decide
    · rcases List.mem_singleton.mp h with rfl
      decide
  have hcol : collapseWsAux false (List.replicate 9999 'a' ++ [' ']) =
      List.replicate 9999 'a' ++ [' '] := by
    rw [collapse_repl_a]
    rw [(by decide : collapseWsAux false [' '] = [' '])]
  have hdw9999 : (List.replicate 9999 'a').dropWhile pySpace =
      List.replicate 9999 'a' := by
    rw [(by norm_num : (9999 : Nat) = 9998 + 1)]
    have h0 := dropWhile_repl_a [] 9998
    rwa [List.append_nil] at h0
  have hstrip : pyStrip (List.replicate 9999 'a' ++ [' ']) =
      List.replicate 9999 'a' := by
    unfold pyStrip
    rw [(by rw [(by norm_num : (9999 : Nat) = 9998 + 1)]; exact
        dropWhile_repl_a [' '] 9998 :
      (List.replicate 9999 'a' ++ [' ']).dropWhile pySpace =
        List.replicate 9999 'a' ++ [' '])]
    unfold stripEnd
    rw [List.reverse_append, List.reverse_replicate,
      (by decide : ([' '] : List Char).reverse = [' ']),
      List.singleton_append,
      List.dropWhile_cons_of_pos (by decide),
      hdw9999,
      List.reverse_replicate]
  have hpre : cleanPre (List.replicate 9999 'a' ++ [' ']) =
      List.replicate 9999 'a' := by
    unfold cleanPre
    rw [hf, hcol, hstrip]
  unfold cleanCore
  rw [hpre, if_neg (by rw [List.length_replicate]; norm_num)]

/-- C1 counterexample: for the 10001-character input made of 9999 `a`s,
a space, and a `b`, cleaning truncates right after the space, so a
second application strips that trailing space and the results differ. -/
theorem clean_content_not_idem :
    clean_content (some (clean_content
        (some (List.replicate 9999 'a' ++ [' ', 'b'])))) ≠
      clean_content (some (List.replicate 9999 'a' ++ [' ', 'b'])) := by
  show cleanCore (cleanCore (List.replicate 9999 'a' ++ [' ', 'b'])) ≠
    cleanCore (List.replicate 9999 'a' ++ [' ', 'b'])
  rw [cleanCore_xbad, cleanCore_xbad2]
  intro h
  have hl := congrArg List.length h
  rw [List.length_replicate, List.length_append, List.length_replicate] at hl
  exact absurd hl (by decide)

/-! ## safe_int and compute_total_engagement
(src/extractors/content_cleaner.py) -/

/-- ASCII lowercasing, the effect of `str.lower()` on the characters
relevant to the numeric parser (digits, punctuation, Latin letters). -/
def asciiLower (c : Char) : Char :=
  if 65 ≤ c.toNat ∧ c.toNat ≤ 90 then Char.ofNat (c.toNat + 32) else c

/-- Decimal digit test, the character class of the regex `[^0-9.]`. -/
def isDigitCh (c : Char) : Bool :=
  decide (48 ≤ c.toNat ∧ c.toNat ≤ 57)

/-- Value of a string of decimal digits, most significant first. -/
def digitsVal (l : List Char) : Nat :=
  l.foldl (fun a c => 10 * a + (c.toNat - 48)) 0

/-- Embedding of `safe_int` on a string argument: strip and lowercase,
recognize a trailing `k`/`m` multiplier, keep only digits and dots, then
parse.  The source's `float` branch is modelled with exact decimal
arithmetic (`digits / 10 ^ k`, truncated after multiplying), which
agrees with the source's IEEE-double computation on the reference
inputs.  A string that `int()`/`float()` would reject (several dots, or
no digit at all) yields 0 through the caught `ValueError`. -/
def safe_int_str (s0 : List Char) : Int :=
  let s1 := (pyStrip s0).map asciiLower
  if s1.isEmpty then 0
  else
    let isK := s1.getLast? == some 'k'
    let isM := s1.getLast? == some 'm'
    let mult : Nat := if isK then 1000 else if isM then 1000000 else 1
    let s2 := if isK || isM then s1.dropLast else s1
    let cleaned := s2.filter (fun c => isDigitCh c || c == '.')
    if cleaned.isEmpty then 0
    else if cleaned.contains '.' then
      if cleaned.count '.' ≠ 1 then 0
      else
        let before := cleaned.takeWhile (fun c => !(c == '.'))
        let after := (cleaned.dropWhile (fun c => !(c == '.'))).drop 1
        if before.isEmpty && after.isEmpty then 0
        else Int.ofNat (digitsVal (before ++ after) * mult / 10 ^ after.length)
    else Int.ofNat (digitsVal cleaned * mult)

/-- Argument type of `safe_int`: the source accepts `None`, ints (kept
unchanged by the `isinstance` branch) and strings. -/
inductive PyVal where
  | none
  | int (n : Int)
  | str (s : List Char)

/-- Embedding of `safe_int`. -/
def safe_int : PyVal → Int
  | .none => 0
  | .int n => n
  | .str s => safe_int_str s

example : safe_int (PyVal.str ['3', 'm']) = 3000000 := by decide
example : safe_int (PyVal.str [' ', '4', '2', ' ']) = 42 := by decide
example : safe_int (PyVal.str ['1', '.', '2', '.', '3']) = 0 := by decide
example : safe_int (PyVal.str ['.']) = 0 := by decide
example : safe_int (PyVal.str ['.', '5', 'k']) = 500 := by decide
example : safe_int (PyVal.str ['1', '.', '9']) = 1 := by decide

/-- Python's `x or 0` on an integer (identity, since only 0 is falsy). -/
def pyOr0 (n : Int) : Int :=
  if n = 0 then 0 else n

/-- Embedding of `compute_total_engagement`: each component passes
through `x or 0`, the sum is floored at zero. -/
def compute_total_engagement (like comment share views : Int) : Int :=
  if pyOr0 like + pyOr0 comment + pyOr0 share + pyOr0 views < 0 then 0
  else pyOr0 like + pyOr0 comment + pyOr0 share + pyOr0 views

example : compute_total_engagement (-5) 0 0 0 = 0 := by decide
example : compute_total_engagement 1 2 3 4 = 10 := by decide

/-- C7: `safe_int` is total by construction in this embedding (it
returns an integer for every `None`, integer or string input) and
produces the reference values required by the specification. -/
theorem safe_int_reference_values :
    safe_int PyVal.none = 0 ∧
      safe_int (PyVal.str ['1', '.', '2', 'k']) = 1200 ∧
      safe_int (PyVal.str ['3', ',', '4', '5', '6']) = 3456 ∧
      safe_int (PyVal.str ['7', '8', '9']) = 789 ∧
      safe_int (PyVal.str []) = 0 ∧
      safe_int (PyVal.str ['a', 'b', 'c']) = 0 ∧
      safe_int (PyVal.int 5) = 5 := by
  decide

/-! ## Page URL construction
(facebook_parser.py: `__init__` and `_build_page_url`) -/

/-- Removal of leading `#` characters, the constructor's
`hashtag.lstrip("#")`. -/
def stripHash (h : List Char) : List Char :=
  h.dropWhile (fun c => c == '#')

/-- Characters `urllib.parse.quote_plus` leaves unescaped: ASCII
letters, digits, and `_`, `.`, `-`, `~`. -/
def isUrlSafe (c : Char) : Bool :=
  let v := c.toNat
  decide ((65 ≤ v ∧ v ≤ 90) ∨ (97 ≤ v ∧ v ≤ 122) ∨ (48 ≤ v ∧ v ≤ 57) ∨
    v = 95 ∨ v = 46 ∨ v = 45 ∨ v = 126)

/-- UTF-8 bytes of a character, used for percent-encoding. -/
def utf8Bytes (c : Char) : List Nat :=
  let v := c.toNat
  if v < 128 then [v]
  else if v < 2048 then [192 + v / 64, 128 + v % 64]
  else if v < 65536 then [224 + v / 4096, 128 + (v / 64) % 64, 128 + v % 64]
  else [240 + v / 262144, 128 + (v / 4096) % 64, 128 + (v / 64) % 64,
    128 + v % 64]

/-- Digit table (decimal digits and uppercase hexadecimal digits). -/
def hexDig : Nat → Char
  | 0 => '0' | 1 => '1' | 2 => '2' | 3 => '3' | 4 => '4' | 5 => '5'
  | 6 => '6' | 7 => '7' | 8 => '8' | 9 => '9' | 10 => 'A' | 11 => 'B'
  | 12 => 'C' | 13 => 'D' | 14 => 'E' | _ => 'F'

/-- Encoding of one character under `quote_plus`: safe characters pass
through, a space becomes `+`, everything else is percent-encoded byte
by byte with uppercase hexadecimal. -/
def quoteChar (c : Char) : List Char :=
  if isUrlSafe c then [c]
  else if c = ' ' then ['+']
  else (utf8Bytes c).flatMap (fun b => ['%', hexDig (b / 16), hexDig (b % 16)])

/-- Embedding of `urllib.parse.quote_plus` (default `safe` argument). -/
def quote_plus (s : List Char) : List Char :=
  s.flatMap quoteChar

/-- Decimal printer used for the f-string `?page={page}` interpolation:
accumulates digits from the least significant one, with enough fuel. -/
def natCharsAux : Nat → Nat → List Char → List Char
  | 0, _, acc => acc
  | fuel + 1, n, acc =>
    if n < 10 then hexDig n :: acc
    else natCharsAux fuel (n / 10) (hexDig (n % 10) :: acc)

/-- Decimal digits of a natural number. -/
def natChars (n : Nat) : List Char :=
  natCharsAux (n + 1) n []

example : natChars 0 = ['0'] := by decide
example : natChars 907 = ['9', '0', '7'] := by decide

/-- Site domain constant `"facebook.com"`. -/
def fbDomain : List Char :=
  ['f', 'a', 'c', 'e', 'b', 'o', 'o', 'k', '.', 'c', 'o', 'm']

/-- Canonical site origin `"https://www.facebook.com"`. -/
def fbOrigin : List Char :=
  ['h', 't', 't', 'p', 's', ':', '/', '/', 'w', 'w', 'w', '.'] ++ fbDomain

/-- Default `base_url` setting `"https://www.facebook.com/hashtag/"`. -/
def baseUrl : List Char :=
  fbOrigin ++ ['/', 'h', 'a', 's', 'h', 't', 'a', 'g', '/']

/-- Query fragment `"?page="`. -/
def pageQuery : List Char :=
  ['?', 'p', 'a', 'g', 'e', '=']

/-- Embedding of `_build_page_url` over the stored (already stripped)
hashtag: page 1 has no query parameter, later pages append `?page=N`. -/
def build_page_url (storedTag : List Char) (page : Nat) : List Char :=
  if page ≤ 1 then baseUrl ++ quote_plus storedTag
  else baseUrl ++ quote_plus storedTag ++ pageQuery ++ natChars page

/-- URL built for a page by a scraper constructed with hashtag `h`; the
constructor stores `h.lstrip("#")`. -/
def pageUrlFor (h : List Char) (page : Nat) : List Char :=
  build_page_url (stripHash h) page

theorem hexDig_ne_hash (n : Nat) : hexDig n ≠ '#' := by
  unfold hexDig
  split <;> decide

theorem quoteChar_ne_hash (c c' : Char) (h : c' ∈ quoteChar c) : c' ≠ '#' := by
  unfold quoteChar at h
  by_cases hs : isUrlSafe c = true
  · rw [if_pos hs] at h
    rcases List.mem_singleton.mp h with rfl
    intro hc
    rw [hc] at hs
    exact absurd hs (by decide)
  · rw [if_neg hs] at h
    by_cases hsp : c = ' '
    · rw [if_pos hsp] at h
      rcases List.mem_singleton.mp h with rfl
      decide
    · rw [if_neg hsp] at h
      rcases List.mem_flatMap.mp h with ⟨b, _, hmem⟩
      rcases List.mem_cons.mp hmem with rfl | hmem2
      · decide
      rcases List.mem_cons.mp hmem2 with rfl | hmem3
      · exact hexDig_ne_hash _
      rcases List.mem_singleton.mp hmem3 with rfl
      exact hexDig_ne_hash _

theorem natCharsAux_ne_hash (fuel : Nat) :
    ∀ (n : Nat) (acc : List Char), (∀ c ∈ acc, c ≠ '#') →
      ∀ c ∈ natCharsAux fuel n acc, c ≠ '#' := by
  induction fuel with
  | zero => intro n acc hacc c hc; exact hacc c hc
  | succ k ih =>
    intro n acc hacc c hc
    unfold natCharsAux at hc
    by_cases hn : n < 10
    · rw [if_pos hn] at hc
      rcases List.mem_cons.mp hc with rfl | h2
      · exact hexDig_ne_hash _
      · exact hacc c h2
    · rw [if_neg hn] at hc
      refine ih (n / 10) _ ?_ c hc
      intro d hd
      rcases List.mem_cons.mp hd with rfl | h2
      · exact hexDig_ne_hash _
      · exact hacc d h2

theorem contains_eq_false_of_forall (l : List Char) (a : Char)
    (h : ∀ c ∈ l, c ≠ a) : l.contains a = false := by
  induction l with
  | nil => rfl
  | cons x t ih =>
    have hx : (a == x) = false :=
      beq_eq_false_iff_ne.mpr (Ne.symm (h x (List.mem_cons_self x t)))
    rw [List.contains_cons, hx, Bool.false_or]
    exact ih (fun c hc => h c (List.mem_cons_of_mem x hc))

theorem dropWhile_dropWhile (p : Char → Bool) (l : List Char) :
    (l.dropWhile p).dropWhile p = l.dropWhile p := by
  induction l with
  | nil => rfl
  | cons c t ih =>
    by_cases hc : p c = true
    · rw [List.dropWhile_cons_of_pos hc]
      exact ih
    · rw [List.dropWhile_cons_of_neg hc, List.dropWhile_cons_of_neg hc]

/-- C9: the scraper's constructor strips every leading `#` from the
hashtag, so the page URL built for `h` equals the one built for `h`
without its leading `#` characters, and `#` never occurs anywhere in
the built URL. -/
theorem page_url_hash_stripped (h : List Char) (p : Nat) :
    pageUrlFor h p = pageUrlFor (stripHash h) p ∧
      (pageUrlFor h p).contains '#' = false := by
  constructor
  · unfold pageUrlFor
    rw [show stripHash (stripHash h) = stripHash h from
      dropWhile_dropWhile _ h]
  · apply contains_eq_false_of_forall
    intro c hc
    have hbase : ∀ c ∈ baseUrl, c ≠ '#' := by decide
    have hq : ∀ c ∈ pageQuery, c ≠ '#' := by decide
    have henc : ∀ d ∈ quote_plus (stripHash h), d ≠ '#' := by
      intro d hd
      rcases List.mem_flatMap.mp hd with ⟨e, _, hmem⟩
      exact quoteChar_ne_hash e d hmem
    unfold pageUrlFor build_page_url at hc
    by_cases hp : p ≤ 1
    · rw [if_pos hp] at hc
      rcases List.mem_append.mp hc with h1 | h1
      · exact hbase c h1
      · exact henc c h1
    · rw [if_neg hp] at hc
      rcases List.mem_append.mp hc with h1 | h1
      · rcases List.mem_append.mp h1 with h2 | h2
        · rcases List.mem_append.mp h2 with h3 | h3
          · exact hbase c h3
          · exact henc c h3
        · exact hq c h2
      · unfold natChars at h1
        exact natCharsAux_ne_hash _ _ _ (fun d hd => absurd hd
          (List.not_mem_nil d)) c h1

/-! ## HTML node model for the post extractor (facebook_parser.py) -/

mutual

/-- Parsed HTML tree handed to `_parse_page` by BeautifulSoup: an
element has a tag name, an attribute list, and children; a text node
holds a string. -/
inductive HNode where
  | elem (tag : List Char) (attrs : List (List Char × List Char))
      (children : HNodes)
  | text (s : List Char)

/-- Children list of an element, unfolded so that recursion over the
tree is structural. -/
inductive HNodes where
  | nil
  | cons (n : HNode) (ns : HNodes)

end

mutual

/-- Pre-order list of elements of a subtree, the node itself first:
the document order in which `find_all` returns matches. -/
def elemsOf : HNode → List HNode
  | .elem t a cs => .elem t a cs :: elemsOfList cs
  | .text _ => []

/-- Pre-order elements of a children list. -/
def elemsOfList : HNodes → List HNode
  | .nil => []
  | .cons n ns => elemsOf n ++ elemsOfList ns

end

mutual

/-- Text-node strings of a subtree in document order. -/
def stringsOf : HNode → List (List Char)
  | .elem _ _ cs => stringsOfList cs
  | .text s => [s]

/-- Text-node strings of a children list. -/
def stringsOfList : HNodes → List (List Char)
  | .nil => []
  | .cons n ns => stringsOf n ++ stringsOfList ns

end

/-- Join with a single-space separator, Python's `" ".join(...)`. -/
def joinSep : List (List Char) → List Char
  | [] => []
  | [w] => w
  | w :: ws => w ++ ' ' :: joinSep ws

/-- BeautifulSoup `get_text(" ", strip=True)`: every descendant string
stripped, empties dropped, joined with a single space. -/
def getTextStrip (n : HNode) : List Char :=
  joinSep (((stringsOf n).map pyStrip).filter (fun s => !(s.isEmpty)))

/-- BeautifulSoup `get_text(strip=True)` with no separator: stripped
non-empty descendant strings concatenated. -/
def getTextCat (n : HNode) : List Char :=
  ((((stringsOf n).map pyStrip).filter (fun s => !(s.isEmpty)))).flatten

/-- First attribute value for a key, BeautifulSoup's `tag["key"]` /
`tag.get("key")`. -/
def attrGet (attrs : List (List Char × List Char)) (k : List Char) :
    Option (List Char) :=
  (attrs.find? (fun p => p.1 == k)).map (fun p => p.2)

/-- Children of a node, empty for text nodes. -/
def childrenOf : HNode → HNodes
  | .elem _ _ cs => cs
  | .text _ => .nil

/-- Tag name `"article"`. -/
def tagArticle : List Char := ['a', 'r', 't', 'i', 'c', 'l', 'e']

/-- Tag name `"div"`. -/
def tagDiv : List Char := ['d', 'i', 'v']

/-- Tag name `"a"`. -/
def tagA : List Char := ['a']

/-- Tag name `"video"`. -/
def tagVideo : List Char := ['v', 'i', 'd', 'e', 'o']

/-- Tag name `"img"`. -/
def tagImg : List Char := ['i', 'm', 'g']

/-- Tag name `"abbr"`. -/
def tagAbbr : List Char := ['a', 'b', 'b', 'r']

/-- Tag name `"time"`. -/
def tagTime : List Char := ['t', 'i', 'm', 'e']

/-- Attribute key `"role"`. -/
def roleKey : List Char := ['r', 'o', 'l', 'e']

/-- Attribute key `"data-ft"`. -/
def dataFtKey : List Char := ['d', 'a', 't', 'a', '-', 'f', 't']

/-- Attribute key `"href"`. -/
def hrefKey : List Char := ['h', 'r', 'e', 'f']

/-- Attribute key `"class"`. -/
def classKey : List Char := ['c', 'l', 'a', 's', 's']

/-- Attribute key `"title"`. -/
def titleKey : List Char := ['t', 'i', 't', 'l', 'e']

/-- Attribute key `"data-utime"`. -/
def dataUtimeKey : List Char :=
  ['d', 'a', 't', 'a', '-', 'u', 't', 'i', 'm', 'e']

/-- Content-container marker `"userContent"`. -/
def clsUserContent : List Char :=
  ['u', 's', 'e', 'r', 'C', 'o', 'n', 't', 'e', 'n', 't']

/-- Content-container marker `"ecm0bbzt"`. -/
def clsEcm : List Char := ['e', 'c', 'm', '0', 'b', 'b', 'z', 't']

/-- Filter of the source's first `find_all`: the tag name must be in
`["article", "div"]` and the `role` attribute must equal `"article"`. -/
def matchesLayer1 : HNode → Bool
  | .elem t a _ => (t == tagArticle || t == tagDiv) &&
      (attrGet a roleKey == some tagArticle)
  | .text _ => false

/-- Filter of the fallback `find_all("div", attrs={"data-ft": True})`:
a `div` element carrying a `data-ft` attribute (any value). -/
def matchesLayer2 : HNode → Bool
  | .elem t a _ => t == tagDiv && (attrGet a dataFtKey).isSome
  | .text _ => false

/-- Candidate discovery of `_parse_page`: the first `find_all`, with
the `data-ft` fallback when it found nothing. -/
def findCandidates (doc : HNodes) : List HNode :=
  if ((elemsOfList doc).filter matchesLayer1).isEmpty then
    (elemsOfList doc).filter matchesLayer2
  else (elemsOfList doc).filter matchesLayer1

/-- Layer-1 selection as claim C3 words it.  Modelled from the spec:
an element qualifies when it is a semantic `article` element or carries
`role="article"`. -/
def claimL1 : HNode → Bool
  | .elem t a _ => t == tagArticle || (attrGet a roleKey == some tagArticle)
  | .text _ => false

/-- Layer-2 selection as claim C3 words it.  Modelled from the spec:
any element carrying a truthy (present and non-empty) `data-ft`. -/
def claimL2 : HNode → Bool
  | .elem _ a _ =>
    match attrGet a dataFtKey with
    | some v => !(v.isEmpty)
    | none => false
  | .text _ => false

/-- Candidate discovery as claim C3 describes it.  Modelled from the
spec: first non-empty layer wins over the claimed layer filters. -/
def claimedCandidates (doc : HNodes) : List HNode :=
  if ((elemsOfList doc).filter claimL1).isEmpty then
    (elemsOfList doc).filter claimL2
  else (elemsOfList doc).filter claimL1

/-- Document for the C3 counterexample: a bare `article` element with
no attributes, next to a `span` with `data-ft="x"`. -/
def docC3 : HNodes :=
  .cons (.elem tagArticle [] .nil)
    (.cons (.elem ['s', 'p', 'a', 'n'] [(dataFtKey, ['x'])] .nil) .nil)

/-- C3 counterexample: the claimed discovery selects the bare `article`
element (layer 1) while the code selects nothing — the first `find_all`
also requires `role="article"` on `article` tags, and the fallback only
accepts `div` elements, so both layers miss. -/
theorem findCandidates_claim_counterexample :
    (claimedCandidates docC3).length = 1 ∧
      (findCandidates docC3).length = 0 := by
  decide

/-- C3 (amended): candidate discovery is layered with the first
non-empty layer winning; layer 1 selects exactly the elements whose
tag is `article` or `div` and whose `role` attribute equals `article`,
and layer 2 — consulted only when layer 1 selects nothing — selects
exactly the `div` elements carrying a `data-ft` attribute. -/
theorem findCandidates_layers (doc : HNodes) (n : HNode) :
    n ∈ findCandidates doc ↔
      ((n ∈ elemsOfList doc ∧ matchesLayer1 n = true) ∨
        ((∀ m ∈ elemsOfList doc, matchesLayer1 m = false) ∧
          n ∈ elemsOfList doc ∧ matchesLayer2 n = true)) := by
  unfold findCandidates
  by_cases hemp : ((elemsOfList doc).filter matchesLayer1).isEmpty = true
  · rw [if_pos hemp]
    have hnil := List.isEmpty_iff.mp hemp
    have hall : ∀ m ∈ elemsOfList doc, matchesLayer1 m = false := by
      intro m hm
      by_contra hmt
      have hm2 : m ∈ (elemsOfList doc).filter matchesLayer1 :=
        List.mem_filter.mpr ⟨hm, by simpa using hmt⟩
      rw [hnil] at hm2
      cases hm2
    constructor
    · intro hmem
      have hsp := List.mem_filter.mp hmem
      exact Or.inr ⟨hall, hsp.1, hsp.2⟩
    · intro hor
      rcases hor with ⟨hmem, h1⟩ | ⟨_, hmem, h2⟩
      · rw [hall n hmem] at h1
        cases h1
      · exact List.mem_filter.mpr ⟨hmem, h2⟩
  · rw [if_neg hemp]
    constructor
    · intro hmem
      have hsp := List.mem_filter.mp hmem
      exact Or.inl ⟨hsp.1, hsp.2⟩
    · intro hor
      rcases hor with ⟨hmem, h1⟩ | ⟨hall, hmem, _⟩
      · exact List.mem_filter.mpr ⟨hmem, h1⟩
      · exact absurd (List.isEmpty_iff.mpr
          (List.filter_eq_nil_iff.mpr (fun a ha hp =>
            by rw [hall a ha] at hp; cases hp))) hemp

/-! ## Permalink extraction (facebook_parser.py: `_parse_single_post`) -/

/-- Substring test, Python's `in` operator on strings. -/
def containsSub (pat : List Char) : List Char → Bool
  | [] => pat.isEmpty
  | c :: t => pat.isPrefixOf (c :: t) || containsSub pat t

example : containsSub ['b', 'c'] ['a', 'b', 'c', 'd'] = true := by decide
example : containsSub ['b', 'd'] ['a', 'b', 'c', 'd'] = false := by decide

/-- Element test of `find("a", href=True)`: an `a` element carrying an
`href` attribute. -/
def isAnchorHref : HNode → Bool
  | .elem t a _ => t == tagA && (attrGet a hrefKey).isSome
  | .text _ => false

mutual

/-- Search step of `find("a", href=True)` on one subtree: the node
itself first, then its children in document order. -/
def findA : HNode → Option HNode
  | .elem t a cs =>
    if isAnchorHref (.elem t a cs) then some (.elem t a cs)
    else findAList cs
  | .text _ => none

/-- Search step of `find("a", href=True)` on a children list. -/
def findAList : HNodes → Option HNode
  | .nil => none
  | .cons n ns =>
    match findA n with
    | some r => some r
    | none => findAList ns

end

/-- BeautifulSoup `node.find("a", href=True)`: `find` searches the
node's descendants, not the node itself. -/
def firstAnchorIn (n : HNode) : Option HNode :=
  findAList (childrenOf n)

/-- Value of an element's `href` attribute (empty when absent, which
cannot happen for anchors returned by the search). -/
def hrefOf : HNode → List Char
  | .elem _ a _ => (attrGet a hrefKey).getD []
  | .text _ => []

/-- Permalink extraction of `_parse_single_post`: the first anchor's
href, used as-is when it contains `facebook.com` and prefixed with the
canonical origin otherwise; empty without any anchor. -/
def nodePermalink (n : HNode) : List Char :=
  match firstAnchorIn n with
  | none => []
  | some a =>
    if containsSub fbDomain (hrefOf a) then hrefOf a
    else fbOrigin ++ hrefOf a

mutual

theorem findA_eq_filter (n : HNode) :
    findA n = ((elemsOf n).filter isAnchorHref).head? := by
  cases n with
  | elem t a cs =>
    by_cases h : isAnchorHref (.elem t a cs) = true
    · simp only [findA, h, if_true, elemsOf, List.filter_cons, List.head?_cons]
    · have h' : isAnchorHref (.elem t a cs) = false := by simpa using h
      simp only [findA, h', Bool.false_eq_true, if_false, elemsOf,
        List.filter_cons]
      exact findAList_eq_filter cs
  | text s => rfl

theorem findAList_eq_filter (ns : HNodes) :
    findAList ns = ((elemsOfList ns).filter isAnchorHref).head? := by
  cases ns with
  | nil => rfl
  | cons n ns =>
    have h1 := findA_eq_filter n
    have h2 := findAList_eq_filter ns
    simp only [findAList, h1, h2, elemsOfList, List.filter_append]
    cases hh : (elemsOf n).filter isAnchorHref with
    | nil => simp
    | cons x xs => simp

end

/-- C4 (amended): the permalink is fully determined by the first
descendant anchor (in document order) that carries an `href`: no
anchor gives the empty permalink; an href containing `facebook.com` is
used as-is; any other href — whether or not it is a path — gets the
canonical site origin prepended. -/
theorem nodePermalink_spec (n : HNode) :
    nodePermalink n =
      match ((elemsOfList (childrenOf n)).filter isAnchorHref).head? with
      | none => []
      | some a =>
        if containsSub fbDomain (hrefOf a) then hrefOf a
        else fbOrigin ++ hrefOf a := by
  unfold nodePermalink firstAnchorIn
  rw [findAList_eq_filter]

/-- Href of the C4 counterexample anchor: `https://x.com/y`. -/
def hrefC4 : List Char :=
  ['h', 't', 't', 'p', 's', ':', '/', '/', 'x', '.', 'c', 'o', 'm', '/', 'y']

/-- Candidate node of the C4 counterexample: a `div` containing one
anchor pointing at `https://x.com/y`. -/
def docC4 : HNode :=
  .elem tagDiv [] (.cons (.elem tagA [(hrefKey, hrefC4)] .nil) .nil)

/-- C4 counterexample: the anchor's href `https://x.com/y` is an
absolute foreign URL, not a path, yet the code still prepends the
origin, producing `https://www.facebook.comhttps://x.com/y` — the
claim's "only if it is a path" restriction fails. -/
theorem nodePermalink_counterexample :
    nodePermalink docC4 = fbOrigin ++ hrefC4 ∧
      hrefC4.head? ≠ some '/' ∧ nodePermalink docC4 ≠ hrefC4 := by
  decide

/-! ## Engagement counter extraction
(facebook_parser.py: `_extract_stat`) -/

/-- Python `str.split()` with no arguments: split on whitespace runs,
dropping empty tokens.  The first argument accumulates the current
word in reverse. -/
def pySplitAux : List Char → List Char → List (List Char)
  | cur, [] => if cur.isEmpty then [] else [cur.reverse]
  | cur, c :: t =>
    if pySpace c then
      if cur.isEmpty then pySplitAux [] t else cur.reverse :: pySplitAux [] t
    else pySplitAux (c :: cur) t

/-- Python `str.split()`. -/
def pySplit (s : List Char) : List (List Char) :=
  pySplitAux [] s

example : pySplit [' ', 'a', 'b', ' ', ' ', 'c', ' '] = [['a', 'b'], ['c']] := by
  decide

/-- Python `str.find`: index of the first occurrence of `pat`, `none`
standing for the source's `-1`. -/
def findSub (pat : List Char) : List Char → Option Nat
  | [] => if pat.isPrefixOf ([] : List Char) then some 0 else none
  | c :: t =>
    if pat.isPrefixOf (c :: t) then some 0
    else (findSub pat t).map (fun i => i + 1)

example : findSub ['b', 'c'] ['a', 'b', 'c'] = some 1 := by decide
example : findSub ['x'] ['a', 'b'] = none := by decide

/-- Token scan of `_extract_stat`: run `safe_int` on each token and
keep the value whenever it beats the current candidate. -/
def statTokenFold : Int → List (List Char) → Int
  | cand, [] => cand
  | cand, tok :: toks =>
    statTokenFold
      (if cand < safe_int (PyVal.str tok) then safe_int (PyVal.str tok)
        else cand) toks

/-- Lowercased flattened candidate text,
`node.get_text(" ", strip=True).lower()`. -/
def statText (n : HNode) : List Char :=
  (getTextStrip n).map asciiLower

/-- Window slice `text[max(0, idx - 10) : idx + 20]`; truncated `Nat`
subtraction clips at zero exactly like the source's `max(0, ...)`. -/
def statWindow (text : List Char) (idx : Nat) : List Char :=
  (text.drop (idx - 10)).take ((idx + 20) - (idx - 10))

/-- Embedding of `_extract_stat`: for each keyword in order, find its
first occurrence in the lowercased flattened text and fold the window's
tokens into the running candidate value, starting from 0. -/
def extract_stat (n : HNode) (keywords : List (List Char)) : Int :=
  keywords.foldl (fun cand kw =>
    match findSub kw (statText n) with
    | none => cand
    | some idx => statTokenFold cand (pySplit (statWindow (statText n) idx))) 0

/-- Counter value as claim C6 words it: the maximum of `safe_int` over
all window tokens of all keywords that occur, and 0 when no keyword
occurs. -/
def statSpec (n : HNode) (keywords : List (List Char)) : Int :=
  ((keywords.filterMap (fun kw =>
      (findSub kw (statText n)).map (fun idx =>
        pySplit (statWindow (statText n) idx)))).flatten.map
    (fun tok => safe_int (PyVal.str tok))).foldl max 0

theorem if_lt_eq_max (c v : Int) : (if c < v then v else c) = max c v := by
  rcases le_or_lt v c with h | h
  · rw [if_neg (not_lt.mpr h), max_eq_left h]
  · rw [if_pos h, max_eq_right (le_of_lt h)]

theorem statTokenFold_eq_foldl_max (toks : List (List Char)) :
    ∀ c : Int, statTokenFold c toks =
      (toks.map (fun tok => safe_int (PyVal.str tok))).foldl max c := by
  induction toks with
  | nil => intro c; rfl
  | cons t ts ih =>
    intro c
    rw [statTokenFold, if_lt_eq_max, List.map_cons, List.foldl_cons]
    exact ih (max c (safe_int (PyVal.str t)))

theorem extract_stat_loop (n : HNode) (kws : List (List Char)) :
    ∀ c : Int,
      kws.foldl (fun cand kw =>
        match findSub kw (statText n) with
        | none => cand
        | some idx =>
          statTokenFold cand (pySplit (statWindow (statText n) idx))) c =
      ((kws.filterMap (fun kw =>
          (findSub kw (statText n)).map (fun idx =>
            pySplit (statWindow (statText n) idx)))).flatten.map
        (fun tok => safe_int (PyVal.str tok))).foldl max c := by
  induction kws with
  | nil => intro c; rfl
  | cons kw rest ih =>
    intro c
    rw [List.foldl_cons, List.filterMap_cons]
    cases h : findSub kw (statText n) with
    | none =>
      simp only [h, Option.map_none']
      exact ih c
    | some idx =>
      simp only [h, Option.map_some']
      rw [List.flatten_cons, List.map_append, List.foldl_append,
        statTokenFold_eq_foldl_max]
      exact ih _

/-- C6: for every candidate node and keyword list, `_extract_stat`
computes exactly the claim's value — the maximum of `safe_int` over the
whitespace tokens of the 10-before/20-after window around the first
occurrence of each keyword in the lowercased flattened text, with 0
when no keyword occurs. -/
theorem extract_stat_eq_statSpec (n : HNode) (keywords : List (List Char)) :
    extract_stat n keywords = statSpec n keywords :=
  extract_stat_loop n keywords 0

theorem foldl_max_ge (l : List Int) : ∀ c : Int, c ≤ l.foldl max c := by
  induction l with
  | nil => intro c; exact le_refl c
  | cons x xs ih =>
    intro c
    rw [List.foldl_cons]
    exact le_trans (le_max_left c x) (ih (max c x))

theorem extract_stat_nonneg (n : HNode) (keywords : List (List Char)) :
    0 ≤ extract_stat n keywords := by
  rw [extract_stat_eq_statSpec]
  exact foldl_max_ge _ 0

/-! ## Full post extraction (facebook_parser.py: `_parse_single_post`,
`_detect_media_type`, `_extract_date`) -/

/-- Attribute list of a node (empty for text nodes). -/
def attrsOf : HNode → List (List Char × List Char)
  | .elem _ a _ => a
  | .text _ => []

/-- Filter of `find_all("div", class_=cls)`: a `div` whose whitespace-
split `class` attribute contains the marker `cls`. -/
def isDivOfCls (cls : List Char) : HNode → Bool
  | .elem t a _ =>
    t == tagDiv &&
      (match attrGet a classKey with
       | some v => (pySplit v).contains cls
       | none => false)
  | .text _ => false

/-- Content blocks of `_parse_single_post`: for each marker class in
order, the stripped text of every matching descendant `div`, keeping
the non-empty texts. -/
def contentBlocks (n : HNode) : List (List Char) :=
  (((elemsOfList (childrenOf n)).filter (isDivOfCls clsUserContent)) ++
    ((elemsOfList (childrenOf n)).filter (isDivOfCls clsEcm))).filterMap
    (fun d => if (getTextStrip d).isEmpty then none else some (getTextStrip d))

/-- Raw joined content: the class-marker blocks when any matched, else
the candidate's own visible text when non-empty, joined with spaces. -/
def rawContentOf (n : HNode) : List Char :=
  joinSep
    (if (contentBlocks n).isEmpty then
      (if (getTextStrip n).isEmpty then [] else [getTextStrip n])
    else contentBlocks n)

mutual

/-- Search step of `node.find(tag)` on one subtree: tag-name test on
the node itself first, then its children in document order. -/
def findTag (tg : List Char) : HNode → Option HNode
  | .elem t a cs =>
    if t == tg then some (.elem t a cs) else findTagList tg cs
  | .text _ => none

/-- Search step of `node.find(tag)` on a children list. -/
def findTagList (tg : List Char) : HNodes → Option HNode
  | .nil => none
  | .cons n ns =>
    match findTag tg n with
    | some r => some r
    | none => findTagList tg ns

end

/-- BeautifulSoup `node.find(tag)`: `find` searches descendants only. -/
def findTagIn (tg : List Char) (n : HNode) : Option HNode :=
  findTagList tg (childrenOf n)

/-- Media type string `"photo"`. -/
def mediaPhoto : List Char := ['p', 'h', 'o', 't', 'o']

/-- Media type string `"text"`. -/
def mediaText : List Char := ['t', 'e', 'x', 't']

/-- Embedding of `_detect_media_type`: `video` beats `photo` beats
`text`. -/
def detect_media_type (n : HNode) : List Char :=
  if (findTagIn tagVideo n).isSome then tagVideo
  else if (findTagIn tagImg n).isSome then mediaPhoto
  else mediaText

/-- Python `int(str)`: strip, optional sign, decimal digits (the
underscore-grouping corner of Python's integer syntax is not modelled;
no claim depends on it). -/
def parseIntPy (s : List Char) : Option Int :=
  match pyStrip s with
  | '+' :: ds =>
    if !ds.isEmpty && ds.all isDigitCh then some (Int.ofNat (digitsVal ds))
    else none
  | '-' :: ds =>
    if !ds.isEmpty && ds.all isDigitCh then some (-(Int.ofNat (digitsVal ds)))
    else none
  | ds =>
    if !ds.isEmpty && ds.all isDigitCh then some (Int.ofNat (digitsVal ds))
    else none

example : parseIntPy [' ', '4', '2'] = some 42 := by decide
example : parseIntPy ['-', '7'] = some (-7) := by decide
example : parseIntPy ['4', 'x'] = none := by decide

/-- Date fallback for one tag name: the first matching descendant's
non-empty `title` attribute, else its non-empty stripped text. -/
def dateFromTag (tg : List Char) (n : HNode) : Option (List Char) :=
  match findTagIn tg n with
  | none => none
  | some t =>
    match attrGet (attrsOf t) titleKey with
    | some v =>
      if !v.isEmpty then some v
      else if !(getTextCat t).isEmpty then some (getTextCat t) else none
    | none =>
      if !(getTextCat t).isEmpty then some (getTextCat t) else none

/-- Embedding of `_extract_date`, abstracted over `fmt`, the source's
`time.strftime("%Y-%m-%d %H:%M:%S", time.localtime(ts))` composition —
its output depends on the host timezone, so every theorem quantifies
over it.  An `abbr` with a parsable `data-utime` wins; otherwise the
`time` then `abbr` fallbacks; otherwise the empty string. -/
def extract_date (fmt : Int → List Char) (n : HNode) : List Char :=
  match
    (match findTagIn tagAbbr n with
     | some t =>
       match attrGet (attrsOf t) dataUtimeKey with
       | some v => (parseIntPy v).map fmt
       | none => none
     | none => none) with
  | some d => d
  | none =>
    match dateFromTag tagTime n with
    | some d => d
    | none =>
      match dateFromTag tagAbbr n with
      | some d => d
      | none => []

/-- Post record, the `FacebookPost` dataclass (source field order). -/
structure FacebookPost where
  permalink : List Char
  content : List Char
  media_type : List Char
  like_count : Int
  comment_count : Int
  share_count : Int
  total_engagement : Int
  video_views_count : Int
  date : List Char
deriving DecidableEq

/-- Keyword `"like"`. -/
def kwLike : List Char := ['l', 'i', 'k', 'e']

/-- Keyword `"reaction"`. -/
def kwReaction : List Char := ['r', 'e', 'a', 'c', 't', 'i', 'o', 'n']

/-- Keyword `"comment"`. -/
def kwComment : List Char := ['c', 'o', 'm', 'm', 'e', 'n', 't']

/-- Keyword `"share"`. -/
def kwShare : List Char := ['s', 'h', 'a', 'r', 'e']

/-- Keyword `"view"`. -/
def kwView : List Char := ['v', 'i', 'e', 'w']

/-- Like counter of a candidate (`safe_int` applied to the integer
`_extract_stat` returns is the identity on it). -/
def postLikes (n : HNode) : Int :=
  safe_int (PyVal.int (extract_stat n [kwLike, kwReaction]))

/-- Comment counter of a candidate. -/
def postComments (n : HNode) : Int :=
  safe_int (PyVal.int (extract_stat n [kwComment]))

/-- Share counter of a candidate. -/
def postShares (n : HNode) : Int :=
  safe_int (PyVal.int (extract_stat n [kwShare]))

/-- Video view counter of a candidate. -/
def postViews (n : HNode) : Int :=
  safe_int (PyVal.int (extract_stat n [kwView]))

/-- Embedding of `_parse_single_post`: a candidate with empty cleaned
content and empty permalink is rejected; otherwise all fields are
assembled into a post record. -/
def parse_single_post (fmt : Int → List Char) (n : HNode) :
    Option FacebookPost :=
  if (clean_content (some (rawContentOf n))).isEmpty &&
      (nodePermalink n).isEmpty then none
  else
    some ⟨nodePermalink n, clean_content (some (rawContentOf n)),
      detect_media_type n, postLikes n, postComments n, postShares n,
      compute_total_engagement (postLikes n) (postComments n) (postShares n)
        (postViews n),
      postViews n, extract_date fmt n⟩

theorem pyOr0_eq (n : Int) : pyOr0 n = n := by
  by_cases h : n = 0
  · simp [pyOr0, h]
  · simp [pyOr0, h]

theorem compute_total_engagement_eq_sum (a b c d : Int)
    (ha : 0 ≤ a) (hb : 0 ≤ b) (hc : 0 ≤ c) (hd : 0 ≤ d) :
    compute_total_engagement a b c d = a + b + c + d := by
  unfold compute_total_engagement
  rw [pyOr0_eq, pyOr0_eq, pyOr0_eq, pyOr0_eq, if_neg (by omega)]

/-- C10: every post record the extractor produces has non-negative
like, comment, share and view counters, and its total engagement is
exactly their sum — the defensive flooring inside
`compute_total_engagement` never fires. -/
theorem parse_single_post_invariants (fmt : Int → List Char) (n : HNode)
    (p : FacebookPost) (h : parse_single_post fmt n = some p) :
    0 ≤ p.like_count ∧ 0 ≤ p.comment_count ∧ 0 ≤ p.share_count ∧
      0 ≤ p.video_views_count ∧
      p.total_engagement = p.like_count + p.comment_count +
        p.share_count + p.video_views_count := by
  unfold parse_single_post at h
  split at h
  · cases h
  · have hp := Option.some.inj h
    subst hp
    have hl : 0 ≤ postLikes n := extract_stat_nonneg n _
    have hcm : 0 ≤ postComments n := extract_stat_nonneg n _
    have hs : 0 ≤ postShares n := extract_stat_nonneg n _
    have hv : 0 ≤ postViews n := extract_stat_nonneg n _
    exact ⟨hl, hcm, hs, hv,
      compute_total_engagement_eq_sum _ _ _ _ hl hcm hs hv⟩

/-- Trivial time formatter used by the C10 witness (never invoked on
its node, which has no `abbr` descendant). -/
def fmt0 : Int → List Char := fun _ => []

/-- Witness node for C10: a `div` holding the text `hello`. -/
def nodeC10 : HNode :=
  .elem tagDiv [] (.cons (.text ['h', 'e', 'l', 'l', 'o']) .nil)

/-- Post record produced for `nodeC10`. -/
def postC10 : FacebookPost :=
  ⟨[], ['h', 'e', 'l', 'l', 'o'], mediaText, 0, 0, 0, 0, 0, []⟩

/-- Witness for `parse_single_post_invariants` at a concrete node. -/
theorem parse_single_post_invariants_witness :
    parse_single_post fmt0 nodeC10 = some postC10 ∧
      (0 ≤ postC10.like_count ∧ 0 ≤ postC10.comment_count ∧
        0 ≤ postC10.share_count ∧ 0 ≤ postC10.video_views_count ∧
        postC10.total_engagement = postC10.like_count +
          postC10.comment_count + postC10.share_count +
          postC10.video_views_count) :=
  ⟨by decide, parse_single_post_invariants fmt0 nodeC10 postC10 (by decide)⟩

/-! ## Page fetching (facebook_parser.py: `_fetch_page`), proxy manager
(src/utils/proxy_manager.py) and the identity rotator (an external
collaborator, modelled from the spec) -/

/-- Mapping key `"http"`. -/
def httpKey : List Char := ['h', 't', 't', 'p']

/-- Mapping key `"https"`. -/
def httpsKey : List Char := ['h', 't', 't', 'p', 's']

/-- One entry of the configured proxy list: a bare URL string or a
ready `requests`-style mapping. -/
inductive ProxyVal where
  | str (s : List Char)
  | dict (d : List (List Char × List Char))
deriving DecidableEq

/-- State of `ProxyManager`: the configured list and the position of
the `itertools.cycle` iterator. -/
structure ProxyManager where
  proxies : List ProxyVal
  cursor : Nat
deriving DecidableEq

/-- String-to-mapping expansion done by `get_next_proxy`. -/
def proxyDictOf : ProxyVal → List (List Char × List Char)
  | .str s => [(httpKey, s), (httpsKey, s)]
  | .dict d => d

/-- Embedding of `ProxyManager.get_next_proxy`: `None` when no proxies
are configured, else the cycle's next entry with the cursor advanced. -/
def get_next_proxy (pm : ProxyManager) :
    Option (List (List Char × List Char)) × ProxyManager :=
  if pm.proxies.isEmpty then (none, pm)
  else
    (some (proxyDictOf
        (pm.proxies.getD (pm.cursor % pm.proxies.length) (ProxyVal.str []))),
      ProxyManager.mk pm.proxies (pm.cursor + 1))

/-- State of the Identity Rotator.  Modelled from the spec: the
user-agent rotator is an external collaborator of which only the
`get_user_agent` contract is specified — round-robin over a fixed
pool, a fixed default when the pool is empty. -/
structure UARotator where
  uas : List (List Char)
  cursor : Nat
deriving DecidableEq

/-- User agent the rotator hands out in its current state. -/
def uaCurrent (r : UARotator) : List Char :=
  r.uas.getD (r.cursor % r.uas.length) []

/-- Modelled from the spec: `get_user_agent` returns the next
user-agent string and advances the cursor. -/
def get_user_agent (r : UARotator) : List Char × UARotator :=
  (uaCurrent r, UARotator.mk r.uas (r.cursor + 1))

/-- Transport outcome of one GET attempt: a response with status code
and body, or a raised `requests.RequestException`. -/
inductive FetchOutcome where
  | resp (status : Nat) (body : List Char)
  | exn
deriving DecidableEq

/-- Success test of an attempt, `resp.status_code == 200`. -/
def isOk200 : FetchOutcome → Bool
  | .resp s _ => s == 200
  | .exn => false

/-- Body of a response (`resp.text`; unused for failures). -/
def bodyOf : FetchOutcome → List Char
  | .resp _ body => body
  | .exn => []

/-- One issued GET: target URL, `User-Agent` header value, and the
proxies mapping handed to `requests` (absent when falsy). -/
structure GetCall where
  url : List Char
  ua : List Char
  proxy : Option (List (List Char × List Char))
deriving DecidableEq

/-- Observable outcome of `_fetch_page`: the returned body if any, the
GETs issued and the back-off sleeps performed, in order. -/
structure FetchResult where
  result : Option (List Char)
  gets : List GetCall
  sleeps : List Rat
deriving DecidableEq

/-- `request_kwargs` attaches `proxies` only when truthy — neither
`None` nor an empty mapping. -/
def effectiveProxy (p : Option (List (List Char × List Char))) :
    Option (List (List Char × List Char)) :=
  match p with
  | none => none
  | some d => if d.isEmpty then none else some d

/-- Bookkeeping of one failed attempt: record the GET, sleep
`backoff * attempt` when attempts remain (`attempt < max_retries`),
and continue with the rest of the loop. -/
def failCont (call : GetCall) (a maxR : Nat) (b : Rat)
    (r : FetchResult) : FetchResult :=
  ⟨r.result, call :: r.gets, (if a < maxR then [b * (a : Rat)] else []) ++ r.sleeps⟩

/-- Retry loop of `_fetch_page`: `rem` attempts remain and the current
one is number `a` (1-based).  Status 200 returns the body at once;
any other status or an exception retries. -/
def fetchLoop (oracle : Nat → FetchOutcome) (url ua : List Char)
    (proxy : Option (List (List Char × List Char))) (maxR : Nat) (b : Rat) :
    Nat → Nat → FetchResult
  | 0, _ => ⟨none, [], []⟩
  | rem + 1, a =>
    if isOk200 (oracle a) then ⟨some (bodyOf (oracle a)), [⟨url, ua, proxy⟩], []⟩
    else failCont ⟨url, ua, proxy⟩ a maxR b
      (fetchLoop oracle url ua proxy maxR b rem (a + 1))

/-- Embedding of `_fetch_page`: the user agent and proxy are obtained
once, before the loop; then up to `max_retries` attempts run with those
fixed values.  Returns the fetch result and the rotators' new states. -/
def fetch_page (oracle : Nat → FetchOutcome) (url : List Char)
    (maxR : Nat) (b : Rat) (uaR : UARotator) (pm : ProxyManager) :
    FetchResult × UARotator × ProxyManager :=
  (fetchLoop oracle url (get_user_agent uaR).1
      (effectiveProxy (get_next_proxy pm).1) maxR b maxR 1,
    (get_user_agent uaR).2, (get_next_proxy pm).2)

/-- Per-attempt-rotating fetch.  Modelled from the spec: claim C2 reads
that every retry attempt obtains a fresh user agent and a fresh proxy
from the rotators; this loop does exactly that, for comparison with
`fetch_page`. -/
def fetchLoopClaim (oracle : Nat → FetchOutcome) (url : List Char)
    (maxR : Nat) (b : Rat) :
    Nat → Nat → UARotator → ProxyManager →
      FetchResult × UARotator × ProxyManager
  | 0, _, uaR, pm => (⟨none, [], []⟩, uaR, pm)
  | rem + 1, a, uaR, pm =>
    if isOk200 (oracle a) then
      (⟨some (bodyOf (oracle a)),
          [⟨url, (get_user_agent uaR).1, effectiveProxy (get_next_proxy pm).1⟩],
          []⟩,
        (get_user_agent uaR).2, (get_next_proxy pm).2)
    else
      (failCont
          ⟨url, (get_user_agent uaR).1, effectiveProxy (get_next_proxy pm).1⟩
          a maxR b
          (fetchLoopClaim oracle url maxR b rem (a + 1) (get_user_agent uaR).2
            (get_next_proxy pm).2).1,
        (fetchLoopClaim oracle url maxR b rem (a + 1) (get_user_agent uaR).2
          (get_next_proxy pm).2).2)

/-- The spec-claimed fetch: per-attempt rotation from the same initial
rotator states. -/
def fetch_page_claim (oracle : Nat → FetchOutcome) (url : List Char)
    (maxR : Nat) (b : Rat) (uaR : UARotator) (pm : ProxyManager) :
    FetchResult × UARotator × ProxyManager :=
  fetchLoopClaim oracle url maxR b maxR 1 uaR pm

/-- Rotator pool for the C2 counterexample: two distinct user agents. -/
def uaR0 : UARotator := UARotator.mk [['A'], ['B']] 0

/-- Proxy manager for the C2 counterexample: no proxies configured. -/
def pm0 : ProxyManager := ProxyManager.mk [] 0

/-- Transport for the C2 counterexample: the first attempt raises, the
second succeeds. -/
def oracleC2 : Nat → FetchOutcome :=
  fun a => if a = 1 then FetchOutcome.exn else FetchOutcome.resp 200 ['x']

/-- URL for the C2 counterexample. -/
def urlC2 : List Char := ['u']

/-- C2 counterexample: with two distinct configured user agents and a
fetch whose first attempt fails, the code issues both attempts with
the same user agent `A` (it read the rotator once, before the loop),
while the claimed per-attempt rotation would issue the second attempt
with `B`; the GET traces differ. -/
theorem fetch_rotation_counterexample :
    ((fetch_page oracleC2 urlC2 2 0 uaR0 pm0).1.gets.map GetCall.ua =
        [['A'], ['A']]) ∧
      ((fetch_page_claim oracleC2 urlC2 2 0 uaR0 pm0).1.gets.map GetCall.ua =
        [['A'], ['B']]) ∧
      (fetch_page oracleC2 urlC2 2 0 uaR0 pm0).1.gets ≠
        (fetch_page_claim oracleC2 urlC2 2 0 uaR0 pm0).1.gets := by
  decide

theorem fetchLoop_gets_const (oracle : Nat → FetchOutcome)
    (url ua : List Char) (proxy : Option (List (List Char × List Char)))
    (maxR : Nat) (b : Rat) :
    ∀ rem a,
      ((fetchLoop oracle url ua proxy maxR b rem a).gets.map GetCall.ua =
          List.replicate
            (fetchLoop oracle url ua proxy maxR b rem a).gets.length ua) ∧
        ((fetchLoop oracle url ua proxy maxR b rem a).gets.map GetCall.proxy =
          List.replicate
            (fetchLoop oracle url ua proxy maxR b rem a).gets.length proxy) := by
  intro rem
  induction rem with
  | zero => intro a; exact ⟨rfl, rfl⟩
  | succ k ih =>
    intro a
    by_cases h : isOk200 (oracle a) = true
    · simp [fetchLoop, h]
    · have h' : isOk200 (oracle a) = false := by simpa using h
      simp only [fetchLoop, h', Bool.false_eq_true, if_false, failCont,
        List.map_cons, List.length_cons, List.replicate_succ]
      exact ⟨by rw [(ih (a + 1)).1], by rw [(ih (a + 1)).2]⟩

/-- C2 (amended): the user agent and the proxy are obtained once per
page fetch, before the first attempt; every GET issued during that
fetch carries those same values, and each rotator advances exactly
once per fetch — rotation is per fetch, not per attempt. -/
theorem fetch_page_rotation_sticky (oracle : Nat → FetchOutcome)
    (url : List Char) (maxR : Nat) (b : Rat) (uaR : UARotator)
    (pm : ProxyManager) :
    ((fetch_page oracle url maxR b uaR pm).1.gets.map GetCall.ua =
        List.replicate (fetch_page oracle url maxR b uaR pm).1.gets.length
          (uaCurrent uaR)) ∧
      ((fetch_page oracle url maxR b uaR pm).1.gets.map GetCall.proxy =
        List.replicate (fetch_page oracle url maxR b uaR pm).1.gets.length
          (effectiveProxy (get_next_proxy pm).1)) ∧
      (fetch_page oracle url maxR b uaR pm).2.1 =
        UARotator.mk uaR.uas (uaR.cursor + 1) ∧
      (fetch_page oracle url maxR b uaR pm).2.2 = (get_next_proxy pm).2 := by
  refine ⟨?_, ?_, rfl, rfl⟩
  · exact (fetchLoop_gets_const oracle url (get_user_agent uaR).1
      (effectiveProxy (get_next_proxy pm).1) maxR b maxR 1).1
  · exact (fetchLoop_gets_const oracle url (get_user_agent uaR).1
      (effectiveProxy (get_next_proxy pm).1) maxR b maxR 1).2

theorem fetchLoop_gets_le (oracle : Nat → FetchOutcome)
    (url ua : List Char) (proxy : Option (List (List Char × List Char)))
    (maxR : Nat) (b : Rat) :
    ∀ rem a, (fetchLoop oracle url ua proxy maxR b rem a).gets.length ≤ rem := by
  intro rem
  induction rem with
  | zero => intro a; exact le_refl 0
  | succ k ih =>
    intro a
    by_cases h : isOk200 (oracle a) = true
    · simp [fetchLoop, h]
    · have h' : isOk200 (oracle a) = false := by simpa using h
      simp only [fetchLoop, h', Bool.false_eq_true, if_false, failCont,
        List.length_cons]
      exact Nat.succ_le_succ (ih (a + 1))

theorem fetchLoop_gets_pos (oracle : Nat → FetchOutcome)
    (url ua : List Char) (proxy : Option (List (List Char × List Char)))
    (maxR : Nat) (b : Rat) (rem a : Nat) (hrem : 0 < rem) :
    0 < (fetchLoop oracle url ua proxy maxR b rem a).gets.length := by
  cases rem with
  | zero => cases hrem
  | succ k =>
    by_cases h : isOk200 (oracle a) = true
    · simp [fetchLoop, h]
    · have h' : isOk200 (oracle a) = false := by simpa using h
      simp [fetchLoop, h', failCont]

theorem fetchLoop_sleeps (oracle : Nat → FetchOutcome)
    (url ua : List Char) (proxy : Option (List (List Char × List Char)))
    (maxR : Nat) (b : Rat) :
    ∀ rem a, a + rem = maxR + 1 →
      (fetchLoop oracle url ua proxy maxR b rem a).sleeps =
        (List.range' a
            ((fetchLoop oracle url ua proxy maxR b rem a).gets.length - 1)).map
          (fun i : Nat => b * (i : Rat)) := by
  intro rem
  induction rem with
  | zero => intro a _; rfl
  | succ k ih =>
    intro a ha
    by_cases h : isOk200 (oracle a) = true
    · simp [fetchLoop, h]
    · have h' : isOk200 (oracle a) = false := by simpa using h
      simp only [fetchLoop, h', Bool.false_eq_true, if_false, failCont,
        List.length_cons]
      by_cases hlt : a < maxR
      · have hk : 0 < k := by omega
        have hpos := fetchLoop_gets_pos oracle url ua proxy maxR b k (a + 1) hk
        obtain ⟨m, hm⟩ : ∃ m,
            (fetchLoop oracle url ua proxy maxR b k (a + 1)).gets.length =
              m + 1 :=
          ⟨(fetchLoop oracle url ua proxy maxR b k (a + 1)).gets.length - 1,
            by omega⟩
        rw [if_pos hlt, ih (a + 1) (by omega), hm]
        rw [show m + 1 + 1 - 1 = m + 1 from by omega,
          show m + 1 - 1 = m from by omega]
        rw [List.range'_succ, List.map_cons]
        rfl
      · have hk : k = 0 := by omega
        subst hk
        rw [if_neg hlt]
        rfl

theorem fetchLoop_result_none (oracle : Nat → FetchOutcome)
    (url ua : List Char) (proxy : Option (List (List Char × List Char)))
    (maxR : Nat) (b : Rat) :
    ∀ rem a,
      ((fetchLoop oracle url ua proxy maxR b rem a).result = none ↔
        ∀ i ∈ List.range' a rem, isOk200 (oracle i) = false) := by
  intro rem
  induction rem with
  | zero =>
    intro a
    constructor
    · intro _ i hi
      cases hi
    · intro _
      rfl
  | succ k ih =>
    intro a
    by_cases h : isOk200 (oracle a) = true
    · constructor
      · intro hr
        exfalso
        simp [fetchLoop, h] at hr
      · intro hall
        exfalso
        have := hall a (by rw [List.range'_succ]; exact List.mem_cons_self _ _)
        rw [h] at this
        cases this
    · have h' : isOk200 (oracle a) = false := by simpa using h
      constructor
      · intro hr i hi
        rw [List.range'_succ] at hi
        rcases List.mem_cons.mp hi with rfl | hi2
        · exact h'
        · have hr2 : (fetchLoop oracle url ua proxy maxR b k (a + 1)).result
              = none := by
            simpa [fetchLoop, h', failCont] using hr
          exact (ih (a + 1)).mp hr2 i hi2
      · intro hall
        simp only [fetchLoop, h', Bool.false_eq_true, if_false, failCont]
        refine (ih (a + 1)).mpr ?_
        intro i hi
        exact hall i (by rw [List.range'_succ]; exact List.mem_cons_of_mem _ hi)

/-- C5: `_fetch_page` issues at most `max_retries` GETs; its sleeps are
exactly `backoff * 1, …, backoff * (k - 1)` for the `k` GETs issued
(linear back-off after every failed non-final attempt, none after the
final one); and it returns absence of content — rather than raising,
the embedding being total — exactly when every attempt in
`1..max_retries` fails. -/
theorem fetch_page_retry_contract (oracle : Nat → FetchOutcome)
    (url : List Char) (maxR : Nat) (b : Rat) (uaR : UARotator)
    (pm : ProxyManager) :
    (fetch_page oracle url maxR b uaR pm).1.gets.length ≤ maxR ∧
      (fetch_page oracle url maxR b uaR pm).1.sleeps =
        (List.range' 1
            ((fetch_page oracle url maxR b uaR pm).1.gets.length - 1)).map
          (fun i : Nat => b * (i : Rat)) ∧
      ((fetch_page oracle url maxR b uaR pm).1.result = none ↔
        ∀ i ∈ List.range' 1 maxR, isOk200 (oracle i) = false) :=
  ⟨fetchLoop_gets_le oracle url _ _ maxR b maxR 1,
    fetchLoop_sleeps oracle url _ _ maxR b maxR 1 (by omega),
    fetchLoop_result_none oracle url _ _ maxR b maxR 1⟩

/-! ## Pagination controller (facebook_parser.py: `run`, `_parse_page`) -/

/-- Embedding of `_parse_page`, abstracted over `soupParse` — the
external BeautifulSoup HTML parser that turns page source into a node
forest.  Candidates are discovered in layers; each candidate parses
defensively (`parse_single_post` returns `none` for rejected
candidates; the per-candidate exception guard has no effect in a total
embedding). -/
def parse_page (soupParse : List Char → HNodes) (fmt : Int → List Char)
    (html : List Char) : List FacebookPost :=
  (findCandidates (soupParse html)).filterMap (parse_single_post fmt)

/-- Observable outcome of one `run`: the accumulated posts, the pages
whose fetch was attempted, and the inter-page pacing sleeps. -/
structure RunResult where
  posts : List FacebookPost
  fetched : List Nat
  sleeps : List Rat
deriving DecidableEq

/-- Page loop of `run` over the remaining page numbers: a page with no
HTML (failed fetch or falsy empty body) or with zero extracted posts
stops the loop; otherwise its posts are appended, the loop sleeps the
pacing interval and continues. -/
def runLoop (fetchO : Nat → Option (List Char))
    (parseO : List Char → List FacebookPost) (sleepInt : Rat) :
    List Nat → RunResult
  | [] => ⟨[], [], []⟩
  | p :: rest =>
    match fetchO p with
    | none => ⟨[], [p], []⟩
    | some html =>
      if html.isEmpty then ⟨[], [p], []⟩
      else if (parseO html).isEmpty then ⟨[], [p], []⟩
      else
        ⟨parseO html ++ (runLoop fetchO parseO sleepInt rest).posts,
          p :: (runLoop fetchO parseO sleepInt rest).fetched,
          sleepInt :: (runLoop fetchO parseO sleepInt rest).sleeps⟩

/-- Embedding of `run`, abstracted over `fetchO`, the per-page outcome
of `_fetch_page` (`none` covers a `None` return; the retry internals
are modelled separately by `fetch_page`): pages `1..max_pages` in
order. -/
def scraper_run (soupParse : List Char → HNodes) (fmt : Int → List Char)
    (fetchO : Nat → Option (List Char)) (sleepInt : Rat) (maxPages : Nat) :
    RunResult :=
  runLoop fetchO (parse_page soupParse fmt) sleepInt (List.range' 1 maxPages)

/-- A page counts as fully processed when its fetch returns non-empty
HTML and extraction yields at least one post. -/
def goodPage (fetchO : Nat → Option (List Char))
    (parseO : List Char → List FacebookPost) (p : Nat) : Bool :=
  match fetchO p with
  | none => false
  | some html => !html.isEmpty && !(parseO html).isEmpty

/-- Posts extracted for a page (empty when the fetch failed). -/
def pagePosts (fetchO : Nat → Option (List Char))
    (parseO : List Char → List FacebookPost) (p : Nat) : List FacebookPost :=
  match fetchO p with
  | none => []
  | some html => parseO html

theorem runLoop_spec (fetchO : Nat → Option (List Char))
    (parseO : List Char → List FacebookPost) (sleepInt : Rat) :
    ∀ pages : List Nat,
      (runLoop fetchO parseO sleepInt pages).posts =
          (pages.takeWhile (goodPage fetchO parseO)).flatMap
            (pagePosts fetchO parseO) ∧
        (runLoop fetchO parseO sleepInt pages).fetched =
          pages.take ((pages.takeWhile (goodPage fetchO parseO)).length + 1) ∧
        (runLoop fetchO parseO sleepInt pages).sleeps =
          List.replicate (pages.takeWhile (goodPage fetchO parseO)).length
            sleepInt := by
  intro pages
  induction pages with
  | nil => exact ⟨rfl, rfl, rfl⟩
  | cons p rest ih =>
    cases hf : fetchO p with
    | none =>
      have hg : goodPage fetchO parseO p = false := by simp [goodPage, hf]
      simp [runLoop, hf, List.takeWhile_cons, hg]
    | some html =>
      by_cases he : html.isEmpty = true
      · have hg : goodPage fetchO parseO p = false := by
          simp [goodPage, hf, he]
        simp [runLoop, hf, he, List.takeWhile_cons, hg]
      · by_cases hp : (parseO html).isEmpty = true
        · have hg : goodPage fetchO parseO p = false := by
            simp [goodPage, hf, he, hp]
          simp [runLoop, hf, he, hp, List.takeWhile_cons, hg]
        · have hg : goodPage fetchO parseO p = true := by
            simp [goodPage, hf, he, hp]
          have hpp : pagePosts fetchO parseO p = parseO html := by
            simp [pagePosts, hf]
          refine ⟨?_, ?_, ?_⟩
          · simp only [runLoop, hf, he, Bool.false_eq_true, if_false, hp,
              List.takeWhile_cons, hg, if_true, List.flatMap_cons, hpp]
            rw [ih.1]
          · simp only [runLoop, hf, he, Bool.false_eq_true, if_false, hp,
              List.takeWhile_cons, hg, if_true, List.length_cons,
              List.take_succ_cons]
            rw [ih.2.1]
          · simp only [runLoop, hf, he, Bool.false_eq_true, if_false, hp,
              List.takeWhile_cons, hg, if_true, List.length_cons,
              List.replicate_succ]
            rw [ih.2.2]

/-- C8: `run` processes pages `1..max_pages` in order and stops at the
first page whose fetch returns no (or empty) HTML or whose extraction
yields zero posts — that page's fetch is the last one attempted — and
its output is exactly the ordered concatenation of the posts of the
fully processed prefix of pages. -/
theorem scraper_run_spec (soupParse : List Char → HNodes)
    (fmt : Int → List Char) (fetchO : Nat → Option (List Char))
    (sleepInt : Rat) (maxPages : Nat) :
    (scraper_run soupParse fmt fetchO sleepInt maxPages).posts =
        ((List.range' 1 maxPages).takeWhile
            (goodPage fetchO (parse_page soupParse fmt))).flatMap
          (pagePosts fetchO (parse_page soupParse fmt)) ∧
      (scraper_run soupParse fmt fetchO sleepInt maxPages).fetched =
        (List.range' 1 maxPages).take
          (((List.range' 1 maxPages).takeWhile
              (goodPage fetchO (parse_page soupParse fmt))).length + 1) :=
  ⟨(runLoop_spec fetchO (parse_page soupParse fmt) sleepInt
      (List.range' 1 maxPages)).1,
    (runLoop_spec fetchO (parse_page soupParse fmt) sleepInt
      (List.range' 1 maxPages)).2.1⟩
